import Mathlib

/-!
Verification of `dev/start_services.py`: a developer script that starts a
fixed set of microservices in dependency order and polls them for readiness.

The script is embedded shallowly:
* `run_command` is modelled on the outcome of the spawned process
  (`ExecOutcome`): it yields a boolean for processes that ran to completion
  and propagates an exception (`Except.error`) when the process could not be
  executed at all.
* `check_http_health` is modelled on the outcome of the single HTTP GET
  (`HttpOutcome`), with the response body as a byte list.
* `wait_for_service` is modelled against an oracle `health : Nat → Bool`
  giving the result of the i-th health check; `waitCalls` and `waitSleep`
  instrument the same loop with the number of checks performed and the total
  time slept.
* `start_spring_boot_service` is modelled against a `LaunchEnv` giving the
  results of its build command, its terminal-spawn command and the health
  checks; it additionally records the trace of externally visible events.
* the while/for scheduling loop of `main` is `schedLoop`, with the started
  set kept as a list in insertion order (insertion order is launch order);
  `launch : String → Bool` is the oracle giving the result of
  `start_spring_boot_service` for each service name.
-/

namespace StartServices

/-- Bytes of the Python literal `b"UP"`. -/
def upBytes : List Nat := [85, 80]

/-- Python's membership test on byte strings (`pat in body`): `pat` occurs as a
contiguous subsequence of `body`. -/
def containsSeq (pat : List Nat) : List Nat → Bool
  | [] => pat.isEmpty
  | b :: bs => pat.isPrefixOf (b :: bs) || containsSeq pat bs

/-- Outcome of the single HTTP GET issued by `check_http_health`: either a
response with a status code and a body, or an exception (connection error /
timeout) raised while connecting or reading. -/
inductive HttpOutcome where
  | response (status : Nat) (body : List Nat)
  | connError
  | timeout

/-- `check_http_health(port, path)`: returns `response.status == 200 and
b"UP" in response.read()`; every exception is caught and converted to
`False`.  The function is total (it never raises to its caller). -/
def check_http_health : HttpOutcome → Bool
  | .response status body => status == 200 && containsSeq upBytes body
  | .connError => false
  | .timeout => false

/-- The `for i in range(max_retries)` loop of `wait_for_service`: `i` is the
loop index, the second argument the number of remaining iterations.  `health
i` is the result of the health check performed in iteration `i`. -/
def waitAux (health : Nat → Bool) (i : Nat) : Nat → Bool
  | 0 => false
  | fuel + 1 => if health i then true else waitAux health (i + 1) fuel

/-- `wait_for_service(name, port, max_retries, delay)`: poll the health check
up to `max_retries` times, returning `True` on the first healthy observation
and `False` once the retry budget is exhausted. -/
def wait_for_service (health : Nat → Bool) (max_retries : Nat) : Bool :=
  waitAux health 0 max_retries

/-- Number of health checks performed by `waitAux health i fuel`. -/
def waitAuxCalls (health : Nat → Bool) (i : Nat) : Nat → Nat
  | 0 => 0
  | fuel + 1 => if health i then 1 else waitAuxCalls health (i + 1) fuel + 1

/-- Number of health checks performed by `wait_for_service`. -/
def waitCalls (health : Nat → Bool) (max_retries : Nat) : Nat :=
  waitAuxCalls health 0 max_retries

/-- Total time slept by `waitAux`: the loop sleeps `delay` after every failed
check (and does not sleep after a successful one, returning immediately). -/
def waitAuxSleep (health : Nat → Bool) (delay i : Nat) : Nat → Nat
  | 0 => 0
  | fuel + 1 => if health i then 0 else waitAuxSleep health delay (i + 1) fuel + delay

/-- Total time slept by `wait_for_service` with the given `delay`. -/
def waitSleep (health : Nat → Bool) (max_retries delay : Nat) : Nat :=
  waitAuxSleep health delay 0 max_retries

/-- Environment of one `start_spring_boot_service` call: the result of the
build command, the result of the terminal-spawn shell command, and the health
check oracle for the subsequent readiness polling. -/
structure LaunchEnv where
  buildOk : Bool
  spawnOk : Bool
  health : Nat → Bool

/-- Externally visible events of one `start_spring_boot_service` call. -/
inductive LaunchEvent where
  | runBuild
  | runSpawn
  | sleepGrace (units : Nat)
  | healthCheck
deriving DecidableEq

/-- `start_spring_boot_service(service_name, port, service_path)`: run the
build command (abort with `False` on failure), run the terminal-spawn command
(abort with `False` on failure), sleep 5 time units, then return the result
of `wait_for_service` with its default `max_retries = 30`.  The second
component is the trace of events that actually happened, in order. -/
def start_spring_boot_service (env : LaunchEnv) : Bool × List LaunchEvent :=
  if !env.buildOk then
    (false, [.runBuild])
  else if !env.spawnOk then
    (false, [.runBuild, .runSpawn])
  else
    (wait_for_service env.health 30,
      [.runBuild, .runSpawn, .sleepGrace 5] ++
        List.replicate (waitCalls env.health 30) .healthCheck)

/-- One entry of the `services` list in `main`. -/
structure Service where
  name : String
  port : Nat
  path : String
  depends_on : List String
deriving DecidableEq

/-- The two `continue` filters of the scan: a service is eligible when it is
not yet started and all of its dependencies are started. -/
def eligible (started : List String) (svc : Service) : Bool :=
  !started.contains svc.name && svc.depends_on.all fun d => started.contains d

/-- One scan of the `for service in services` loop: the first service that
passes both filters, if any (`None` corresponds to the `for`/`else` branch). -/
def findEligible (services : List Service) (started : List String) : Option Service :=
  services.find? (eligible started)

/-- How one scheduling run ends: the `while` loop exits normally (`success`),
`start_spring_boot_service` returned `False` (`launchFailure`), or a full
scan found no eligible service (`stall`, the "circular dependency detected or
unable to start services" branch). -/
inductive RunResult where
  | success
  | launchFailure
  | stall
deriving DecidableEq

/-- The `while len(started_services) < len(services)` loop of `main`.
`started` is the started set, as a list in insertion order; `launch name`
is the result of `start_spring_boot_service` for the service `name`.
Returns the run result together with the final started set. -/
def schedLoop (launch : String → Bool) (services : List Service)
    (started : List String) : RunResult × List String :=
  if h : started.length < services.length then
    match findEligible services started with
    | none => (.stall, started)
    | some svc =>
      if launch svc.name then
        schedLoop launch services (started ++ [svc.name])
      else
        (.launchFailure, started)
  else
    (.success, started)
termination_by services.length - started.length
decreasing_by simp [List.length_append]; omega

/-- The literal `root_dir` of `main`. -/
def rootDir : String := "/run/media/gokult/common/repos/crm"

/-- The literal `config-server` entry of the `services` list. -/
def configServer : Service :=
  { name := "config-server", port := 8071,
    path := rootDir ++ "/config-server", depends_on := [] }

/-- The literal `eureka-server` entry of the `services` list. -/
def eurekaServer : Service :=
  { name := "eureka-server", port := 8070,
    path := rootDir ++ "/eureka-server", depends_on := ["config-server"] }

/-- The literal `customer-service` entry of the `services` list. -/
def customerService : Service :=
  { name := "customer-service", port := 8080,
    path := rootDir ++ "/customer-service", depends_on := ["eureka-server"] }

/-- The literal `notification-service` entry of the `services` list. -/
def notificationService : Service :=
  { name := "notification-service", port := 9000,
    path := rootDir ++ "/notification-service", depends_on := ["eureka-server"] }

/-- The literal `gateway-server` entry of the `services` list. -/
def gatewayServer : Service :=
  { name := "gateway-server", port := 8072,
    path := rootDir ++ "/gateway-server",
    depends_on := ["customer-service", "notification-service"] }

/-- The literal `services` list of `main`, in its declared order. -/
def services : List Service :=
  [configServer, eurekaServer, customerService, notificationService, gatewayServer]

/-- The names of the five services in their declared order: the launch order
of a fully successful run. -/
def startOrder : List String :=
  ["config-server", "eureka-server", "customer-service",
   "notification-service", "gateway-server"]

/-- The boolean value `main` returns once it reaches the scheduling loop:
`True` when the loop exits normally, `False` on a launch failure or a stalled
scan (the two `return False` statements inside the loop). -/
def mainLoopResult (launch : String → Bool) (svcs : List Service) : Bool :=
  match (schedLoop launch svcs []).1 with
  | .success => true
  | _ => false

/-- `main()`: bring up the infrastructure containers (`dockerOk` is the
result of that `run_command`), abort with `False` if that fails, then run the
scheduling loop over the literal `services` list. -/
def main (dockerOk : Bool) (launch : String → Bool) : Bool :=
  if !dockerOk then false else mainLoopResult launch services

/-- How the `main()` call inside the `__main__` block ends: a normal return
with a boolean, a `KeyboardInterrupt`, or any other uncaught exception. -/
inductive MainOutcome where
  | ret (b : Bool)
  | keyboardInterrupt
  | uncaughtError

/-- Process exit code of the `__main__` block: `sys.exit(1)` when `main`
returns a falsy value, `sys.exit(0)` on `KeyboardInterrupt`, `sys.exit(1)` on
any other exception, and the interpreter's default exit code 0 when `main`
returns `True`. -/
def exitCode : MainOutcome → Nat
  | .ret true => 0
  | .ret false => 1
  | .keyboardInterrupt => 0
  | .uncaughtError => 1

/-- Outcome of the process spawned by `run_command`: it either ran to
completion with an exit code, or could not be executed at all (the
`subprocess.run` call raised something other than `CalledProcessError`,
e.g. `FileNotFoundError`). -/
inductive ExecOutcome where
  | exited (code : Nat)
  | raised

/-- `run_command(command, cwd, shell)` with `check=True`: exit code 0 yields
`True`; a non-zero exit code raises `CalledProcessError`, which is caught and
converted to `False`; any other exception is not caught and propagates to the
caller (`Except.error`). -/
def run_command : ExecOutcome → Except Unit Bool
  | .exited 0 => .ok true
  | .exited (_ + 1) => .ok false
  | .raised => .error ()

/-- Counterexample environment for claim C5: the build succeeds but the
terminal-spawn shell command fails, while the service itself would report
healthy on the first poll. -/
def counterEnv : LaunchEnv :=
  { buildOk := true, spawnOk := false, health := fun _ => true }

/-- Cyclic two-service topology: X depends on Y while Y depends on X. -/
def svcX : Service := { name := "X", port := 1, path := "/srv/X", depends_on := ["Y"] }

/-- Cyclic two-service topology: Y depends on X. -/
def svcY : Service := { name := "Y", port := 2, path := "/srv/Y", depends_on := ["X"] }

/-- Failing two-service scenario: A has no dependencies and B depends on A. -/
def svcA : Service := { name := "A", port := 1, path := "/srv/A", depends_on := [] }

/-- Failing two-service scenario: B depends on A and its launch fails. -/
def svcB : Service := { name := "B", port := 2, path := "/srv/B", depends_on := ["A"] }

/-- Launch oracle of the failing scenario: every service launches except B
(for example because B's build fails). -/
def launchAB : String → Bool := fun s => s != "B"

/-- Unfolding of the boolean `eligible` filter. -/
theorem eligible_iff (started : List String) (svc : Service) :
    eligible started svc = true ↔
      svc.name ∉ started ∧ ∀ d ∈ svc.depends_on, d ∈ started := by
  simp [eligible]

/-- One scan picks exactly the first service of the list, in declared order,
that is eligible with respect to the current started set. -/
theorem findEligible_eq_some_iff {svcs : List Service} {started : List String}
    {svc : Service} :
    findEligible svcs started = some svc ↔
      eligible started svc = true ∧
        ∃ pre post, svcs = pre ++ svc :: post ∧ ∀ x ∈ pre, eligible started x = false := by
  simp [findEligible, List.find?_eq_some, Bool.not_eq_true']

/-- A picked service is in the list, not yet started, and all of its
dependencies are started. -/
theorem findEligible_some {svcs : List Service} {started : List String} {svc : Service}
    (h : findEligible svcs started = some svc) :
    svc ∈ svcs ∧ svc.name ∉ started ∧ ∀ d ∈ svc.depends_on, d ∈ started := by
  refine ⟨List.mem_of_find?_eq_some h, ?_⟩
  exact (eligible_iff started svc).mp (List.find?_some h)

/-- One unfolding of the scheduling loop: a successful launch. -/
theorem schedStep (launch : String → Bool) (svcs : List Service) (st : List String)
    (svc : Service) (hlt : st.length < svcs.length)
    (hfe : findEligible svcs st = some svc) (hl : launch svc.name = true) :
    schedLoop launch svcs st = schedLoop launch svcs (st ++ [svc.name]) := by
  rw [schedLoop, dif_pos hlt]
  simp only [hfe, hl, if_true]

/-- One unfolding of the scheduling loop: a failing launch. -/
theorem schedStepFail (launch : String → Bool) (svcs : List Service) (st : List String)
    (svc : Service) (hlt : st.length < svcs.length)
    (hfe : findEligible svcs st = some svc) (hl : launch svc.name = false) :
    schedLoop launch svcs st = (.launchFailure, st) := by
  rw [schedLoop, dif_pos hlt]
  simp only [hfe, hl, if_false, Bool.false_eq_true]

/-- One unfolding of the scheduling loop: the while-condition is false. -/
theorem schedDone (launch : String → Bool) (svcs : List Service) (st : List String)
    (hge : ¬ st.length < svcs.length) :
    schedLoop launch svcs st = (.success, st) := by
  rw [schedLoop, dif_neg hge]

/-- One unfolding of the scheduling loop: a full scan with no eligible service. -/
theorem schedStall (launch : String → Bool) (svcs : List Service) (st : List String)
    (hlt : st.length < svcs.length) (hfe : findEligible svcs st = none) :
    schedLoop launch svcs st = (.stall, st) := by
  rw [schedLoop, dif_pos hlt]
  simp only [hfe]

/-- Characterization of the scheduling loop, by induction on the number of
services not yet started: the final started set extends the initial one by a
suffix of successfully launched eligible services, no-duplication and
name-provenance are preserved, and each run result pins down the final state
(success: the while-condition is false; stall: incomplete set and no eligible
service; launchFailure: incomplete set and an eligible service whose launch
failed). -/
theorem schedLoop_rec (launch : String → Bool) (svcs : List Service) :
    ∀ n started, svcs.length - started.length ≤ n →
      ∀ r fin, schedLoop launch svcs started = (r, fin) →
        (∃ suffix, fin = started ++ suffix ∧
          ∀ k (hk : k < suffix.length), ∃ svc,
            findEligible svcs (started ++ suffix.take k) = some svc ∧
            launch svc.name = true ∧ suffix.get ⟨k, hk⟩ = svc.name) ∧
        (started.Nodup → fin.Nodup) ∧
        (∀ x ∈ fin, x ∈ started ∨ ∃ svc ∈ svcs, svc.name = x) ∧
        (r = .success → svcs.length ≤ fin.length) ∧
        (r = .stall → fin.length < svcs.length ∧ findEligible svcs fin = none) ∧
        (r = .launchFailure → fin.length < svcs.length ∧
          ∃ svc, findEligible svcs fin = some svc ∧ launch svc.name = false) := by
  intro n
  induction n with
  | zero =>
    intro started hle r fin hrun
    have hge : ¬ started.length < svcs.length := by omega
    rw [schedDone launch svcs started hge] at hrun
    injection hrun with h1 h2
    subst h1; subst h2
    refine ⟨⟨[], by simp, ?_⟩, fun h => h, fun x hx => Or.inl hx, ?_, ?_, ?_⟩
    · intro k hk; simp at hk
    · intro _; omega
    · intro h; exact RunResult.noConfusion h
    · intro h; exact RunResult.noConfusion h
  | succ n ih =>
    intro started hle r fin hrun
    by_cases hlt : started.length < svcs.length
    · cases hfe : findEligible svcs started with
      | none =>
        rw [schedStall launch svcs started hlt hfe] at hrun
        injection hrun with h1 h2
        subst h1; subst h2
        refine ⟨⟨[], by simp, ?_⟩, fun h => h, fun x hx => Or.inl hx, ?_, fun _ => ⟨hlt, hfe⟩, ?_⟩
        · intro k hk; simp at hk
        · intro h; exact RunResult.noConfusion h
        · intro h; exact RunResult.noConfusion h
      | some svc =>
        cases hl : launch svc.name with
        | false =>
          rw [schedStepFail launch svcs started svc hlt hfe hl] at hrun
          injection hrun with h1 h2
          subst h1; subst h2
          refine ⟨⟨[], by simp, ?_⟩, fun h => h, fun x hx => Or.inl hx, ?_, ?_,
            fun _ => ⟨hlt, svc, hfe, hl⟩⟩
          · intro k hk; simp at hk
          · intro h; exact RunResult.noConfusion h
          · intro h; exact RunResult.noConfusion h
        | true =>
          rw [schedStep launch svcs started svc hlt hfe hl] at hrun
          have hle' : svcs.length - (started ++ [svc.name]).length ≤ n := by
            simp [List.length_append]; omega
          obtain ⟨⟨suffix, hfin, htrace⟩, hnodup, hsubset, hsucc, hstall, hfail⟩ :=
            ih (started ++ [svc.name]) hle' r fin hrun
          obtain ⟨hmem, hnotin, -⟩ := findEligible_some hfe
          refine ⟨⟨svc.name :: suffix, ?_, ?_⟩, ?_, ?_, hsucc, hstall, hfail⟩
          · rw [hfin]; simp
          · intro k hk
            match k with
            | 0 =>
              refine ⟨svc, ?_, hl, rfl⟩
              simpa using hfe
            | j + 1 =>
              have hj : j < suffix.length := by
                simpa using hk
              obtain ⟨svc', h1, h2, h3⟩ := htrace j hj
              refine ⟨svc', ?_, h2, ?_⟩
              · rw [List.take_succ_cons, List.append_cons started svc.name (suffix.take j)]
                exact h1
              · simpa using h3
          · intro hnd
            apply hnodup
            simp [List.nodup_append, hnd, hnotin]
          · intro x hx
            rcases hsubset x hx with hx' | hx'
            · rcases List.mem_append.mp hx' with hs | hs
              · exact Or.inl hs
              · exact Or.inr ⟨svc, hmem, (List.mem_singleton.mp hs).symm⟩
            · exact Or.inr hx'
    · rw [schedDone launch svcs started hlt] at hrun
      injection hrun with h1 h2
      subst h1; subst h2
      refine ⟨⟨[], by simp, ?_⟩, fun h => h, fun x hx => Or.inl hx, ?_, ?_, ?_⟩
      · intro k hk; simp at hk
      · intro _; omega
      · intro h; exact RunResult.noConfusion h
      · intro h; exact RunResult.noConfusion h

/-- The characterization of `schedLoop_rec`, for a full run. -/
theorem schedLoop_run (launch : String → Bool) (svcs : List Service) (started : List String)
    (r : RunResult) (fin : List String) (hrun : schedLoop launch svcs started = (r, fin)) :
    (∃ suffix, fin = started ++ suffix ∧
      ∀ k (hk : k < suffix.length), ∃ svc,
        findEligible svcs (started ++ suffix.take k) = some svc ∧
        launch svc.name = true ∧ suffix.get ⟨k, hk⟩ = svc.name) ∧
    (started.Nodup → fin.Nodup) ∧
    (∀ x ∈ fin, x ∈ started ∨ ∃ svc ∈ svcs, svc.name = x) ∧
    (r = .success → svcs.length ≤ fin.length) ∧
    (r = .stall → fin.length < svcs.length ∧ findEligible svcs fin = none) ∧
    (r = .launchFailure → fin.length < svcs.length ∧
      ∃ svc, findEligible svcs fin = some svc ∧ launch svc.name = false) :=
  schedLoop_rec launch svcs (svcs.length - started.length) started le_rfl r fin hrun

/-- For a run from the empty started set, the final started list is itself the
launch trace: element `k` was the eligible service picked when exactly the
first `k` elements had been started, and its launch succeeded. -/
theorem schedLoop_nil_trace (launch : String → Bool) (svcs : List Service)
    (r : RunResult) (fin : List String) (hrun : schedLoop launch svcs [] = (r, fin)) :
    ∀ k (hk : k < fin.length), ∃ svc,
      findEligible svcs (fin.take k) = some svc ∧
      launch svc.name = true ∧ fin.get ⟨k, hk⟩ = svc.name := by
  obtain ⟨⟨suffix, hfin, htrace⟩, -, -, -, -, -⟩ := schedLoop_run launch svcs [] r fin hrun
  have hsf : fin = suffix := by simpa using hfin
  subst hsf
  intro k hk
  obtain ⟨svc, h1, h2, h3⟩ := htrace k hk
  exact ⟨svc, by simpa using h1, h2, h3⟩

/-- The final started list of a run from the empty set has no duplicates. -/
theorem schedLoop_nil_nodup (launch : String → Bool) (svcs : List Service)
    (r : RunResult) (fin : List String) (hrun : schedLoop launch svcs [] = (r, fin)) :
    fin.Nodup := by
  obtain ⟨-, hnd, -, -, -, -⟩ := schedLoop_run launch svcs [] r fin hrun
  exact hnd List.nodup_nil

/-- Every element of the final started list is the name of some service. -/
theorem schedLoop_nil_subset (launch : String → Bool) (svcs : List Service)
    (r : RunResult) (fin : List String) (hrun : schedLoop launch svcs [] = (r, fin)) :
    ∀ x ∈ fin, ∃ svc ∈ svcs, svc.name = x := by
  obtain ⟨-, -, hsub, -, -, -⟩ := schedLoop_run launch svcs [] r fin hrun
  intro x hx
  rcases hsub x hx with h | h
  · simp at h
  · exact h

/-- The final started list is never longer than the service list. -/
theorem schedLoop_fin_le (launch : String → Bool) (svcs : List Service)
    (r : RunResult) (fin : List String) (hrun : schedLoop launch svcs [] = (r, fin)) :
    fin.length ≤ svcs.length := by
  have hnd := schedLoop_nil_nodup launch svcs r fin hrun
  have hsub := schedLoop_nil_subset launch svcs r fin hrun
  have hsubF : fin.toFinset ⊆ (svcs.map Service.name).toFinset := by
    intro x hx
    obtain ⟨svc, hsvc, hname⟩ := hsub x (List.mem_toFinset.mp hx)
    exact List.mem_toFinset.mpr (hname ▸ List.mem_map_of_mem Service.name hsvc)
  calc fin.length = fin.toFinset.card := (List.toFinset_card_of_nodup hnd).symm
    _ ≤ (svcs.map Service.name).toFinset.card := Finset.card_le_card hsubF
    _ ≤ (svcs.map Service.name).length := List.toFinset_card_le _
    _ = svcs.length := List.length_map svcs Service.name

/-- When service names are distinct, a run from the empty set succeeds exactly
when the final started set contains every service name. -/
theorem schedLoop_success_iff (launch : String → Bool) (svcs : List Service)
    (hnd : (svcs.map Service.name).Nodup)
    (r : RunResult) (fin : List String) (hrun : schedLoop launch svcs [] = (r, fin)) :
    r = .success ↔ ∀ svc ∈ svcs, svc.name ∈ fin := by
  obtain ⟨-, -, -, hsucc, hstall, hfail⟩ := schedLoop_run launch svcs [] r fin hrun
  have hfinnd := schedLoop_nil_nodup launch svcs r fin hrun
  have hsub := schedLoop_nil_subset launch svcs r fin hrun
  constructor
  · intro hr
    have hlen : svcs.length ≤ fin.length := hsucc hr
    have hsubF : fin.toFinset ⊆ (svcs.map Service.name).toFinset := by
      intro x hx
      obtain ⟨svc, hsvc, hname⟩ := hsub x (List.mem_toFinset.mp hx)
      exact List.mem_toFinset.mpr (hname ▸ List.mem_map_of_mem Service.name hsvc)
    have hcards : (svcs.map Service.name).toFinset.card ≤ fin.toFinset.card := by
      rw [List.toFinset_card_of_nodup hnd, List.toFinset_card_of_nodup hfinnd,
        List.length_map]
      exact hlen
    have heq := Finset.eq_of_subset_of_card_le hsubF hcards
    intro svc hsvc
    have hmemF : svc.name ∈ (svcs.map Service.name).toFinset :=
      List.mem_toFinset.mpr (List.mem_map_of_mem Service.name hsvc)
    rw [← heq] at hmemF
    exact List.mem_toFinset.mp hmemF
  · intro hall
    have hlen : svcs.length ≤ fin.length := by
      have hsubF : (svcs.map Service.name).toFinset ⊆ fin.toFinset := by
        intro x hx
        obtain ⟨svc, hsvc, hname⟩ := List.mem_map.mp (List.mem_toFinset.mp hx)
        exact List.mem_toFinset.mpr (hname ▸ hall svc hsvc)
      calc svcs.length = (svcs.map Service.name).length := (List.length_map svcs _).symm
        _ = (svcs.map Service.name).toFinset.card := (List.toFinset_card_of_nodup hnd).symm
        _ ≤ fin.toFinset.card := Finset.card_le_card hsubF
        _ ≤ fin.length := List.toFinset_card_le _
    cases r with
    | success => rfl
    | stall => exact absurd hlen (by have := (hstall rfl).1; omega)
    | launchFailure => exact absurd hlen (by have := (hfail rfl).1; omega)

/-- The five literal service names are pairwise distinct. -/
theorem services_names_nodup : (services.map Service.name).Nodup := by
  decide

/-- With every launch succeeding, the literal topology starts all five
services in declared order. -/
theorem schedLoop_services_eval :
    schedLoop (fun _ => true) services [] = (.success, startOrder) := by
  rw [schedStep _ _ _ configServer (by decide) (by rfl) (by rfl)]
  rw [schedStep _ _ _ eurekaServer (by decide) (by rfl) (by rfl)]
  rw [schedStep _ _ _ customerService (by decide) (by rfl) (by rfl)]
  rw [schedStep _ _ _ notificationService (by decide) (by rfl) (by rfl)]
  rw [schedStep _ _ _ gatewayServer (by decide) (by rfl) (by rfl)]
  rw [schedDone _ _ _ (by decide)]
  rfl

/-- The mutually cyclic topology stalls immediately with nothing started. -/
theorem schedLoop_XY_eval :
    schedLoop (fun _ => true) [svcX, svcY] [] = (.stall, []) := by
  rw [schedStall _ _ _ (by decide) (by rfl)]

/-- In the A/B scenario, A starts and then B's launch fails, leaving exactly
A in the started set. -/
theorem schedLoop_AB_eval :
    schedLoop launchAB [svcA, svcB] [] = (.launchFailure, ["A"]) := by
  rw [schedStep _ _ _ svcA (by decide) (by rfl) (by rfl)]
  rw [schedStepFail _ _ _ svcB (by decide) (by rfl) (by rfl)]
  rfl

/-- Destructuring for a list of length five. -/
theorem list_length_five {α : Type} : ∀ (l : List α), l.length = 5 →
    ∃ a b c d e, l = [a, b, c, d, e]
  | [a, b, c, d, e], _ => ⟨a, b, c, d, e, rfl⟩
  | [], h => by simp at h
  | [_], h => by simp at h
  | [_, _], h => by simp at h
  | [_, _, _], h => by simp at h
  | [_, _, _, _], h => by simp at h
  | _ :: _ :: _ :: _ :: _ :: _ :: _, h => by simp at h

/-- The polling loop performs at most as many health checks as it has
remaining iterations. -/
theorem waitAuxCalls_le (health : Nat → Bool) :
    ∀ fuel i, waitAuxCalls health i fuel ≤ fuel := by
  intro fuel
  induction fuel with
  | zero => intro i; simp [waitAuxCalls]
  | succ n ih =>
    intro i
    by_cases h : health i
    · simp [waitAuxCalls, h]
    · have := ih (i + 1)
      simp only [waitAuxCalls, h, if_false, Bool.false_eq_true]
      omega

/-- When every remaining check fails, the polling loop returns false and
performs exactly one health check per iteration. -/
theorem waitAux_all_false (health : Nat → Bool) :
    ∀ fuel i, (∀ j, j < fuel → health (i + j) = false) →
      waitAux health i fuel = false ∧ waitAuxCalls health i fuel = fuel := by
  intro fuel
  induction fuel with
  | zero => intro i _; exact ⟨rfl, rfl⟩
  | succ n ih =>
    intro i hall
    have h0 : health i = false := by simpa using hall 0 (Nat.succ_pos n)
    have hrest : ∀ j, j < n → health (i + 1 + j) = false := by
      intro j hj
      have h1 : i + 1 + j = i + (j + 1) := by omega
      rw [h1]
      exact hall (j + 1) (by omega)
    obtain ⟨ha, hc⟩ := ih (i + 1) hrest
    constructor
    · simp [waitAux, h0, ha]
    · simp [waitAuxCalls, h0, hc]

/-- When the first healthy observation is the check at offset `k`, the polling
loop returns true after exactly `k + 1` health checks. -/
theorem waitAux_first_true (health : Nat → Bool) :
    ∀ fuel i k, k < fuel → (∀ j, j < k → health (i + j) = false) →
      health (i + k) = true →
      waitAux health i fuel = true ∧ waitAuxCalls health i fuel = k + 1 := by
  intro fuel
  induction fuel with
  | zero => intro i k hk; exact absurd hk (by omega)
  | succ n ih =>
    intro i k hk hbefore htrue
    cases k with
    | zero =>
      have h0 : health i = true := by simpa using htrue
      exact ⟨by simp [waitAux, h0], by simp [waitAuxCalls, h0]⟩
    | succ k =>
      have h0 : health i = false := by simpa using hbefore 0 (Nat.succ_pos k)
      have hb : ∀ j, j < k → health (i + 1 + j) = false := by
        intro j hj
        have h1 : i + 1 + j = i + (j + 1) := by omega
        rw [h1]
        exact hbefore (j + 1) (by omega)
      have ht : health (i + 1 + k) = true := by
        have h1 : i + 1 + k = i + (k + 1) := by omega
        rw [h1]
        exact htrue
      obtain ⟨ha, hc⟩ := ih (i + 1) k (by omega) hb ht
      exact ⟨by simp [waitAux, h0, ha], by simp [waitAuxCalls, h0, hc]⟩

/-- The polling loop sleeps at most `fuel * d` time units. -/
theorem waitAuxSleep_le (health : Nat → Bool) (d : Nat) :
    ∀ fuel i, waitAuxSleep health d i fuel ≤ fuel * d := by
  intro fuel
  induction fuel with
  | zero => intro i; simp [waitAuxSleep]
  | succ n ih =>
    intro i
    by_cases h : health i
    · simp [waitAuxSleep, h]
    · have := ih (i + 1)
      simp only [waitAuxSleep, h, if_false, Bool.false_eq_true, Nat.succ_mul]
      omega

/-- When every check fails, the polling loop sleeps exactly `fuel * d`. -/
theorem waitAuxSleep_all_false (health : Nat → Bool) (d : Nat) :
    ∀ fuel i, (∀ j, j < fuel → health (i + j) = false) →
      waitAuxSleep health d i fuel = fuel * d := by
  intro fuel
  induction fuel with
  | zero => intro i _; simp [waitAuxSleep]
  | succ n ih =>
    intro i hall
    have h0 : health i = false := by simpa using hall 0 (Nat.succ_pos n)
    have hrest : ∀ j, j < n → health (i + 1 + j) = false := by
      intro j hj
      have h1 : i + 1 + j = i + (j + 1) := by omega
      rw [h1]
      exact hall (j + 1) (by omega)
    have hc := ih (i + 1) hrest
    simp only [waitAuxSleep, h0, if_false, Bool.false_eq_true, hc, Nat.succ_mul]

/-- Claim C1: the scheduler's main loop repeatedly scans the static service
list in declared order.  Element `k` of the final started list was, when it
was launched, the first service of the list that was not yet started and had
every dependency already started, and its launch succeeded.  The run ends
successfully exactly when the started set equals the full service set, and it
ends with a launch failure exactly when, at the final started set, the first
eligible service's launch returned failure while the set was incomplete. -/
theorem C1_scheduler_main_loop (launch : String → Bool) (svcs : List Service)
    (hnd : (svcs.map Service.name).Nodup) (r : RunResult) (fin : List String)
    (hrun : schedLoop launch svcs [] = (r, fin)) :
    (∀ k (hk : k < fin.length), ∃ svc pre post,
      svcs = pre ++ svc :: post ∧
      eligible (fin.take k) svc = true ∧
      (∀ x ∈ pre, eligible (fin.take k) x = false) ∧
      launch svc.name = true ∧ fin.get ⟨k, hk⟩ = svc.name) ∧
    (∀ x ∈ fin, ∃ svc ∈ svcs, svc.name = x) ∧
    (r = .success ↔ ∀ svc ∈ svcs, svc.name ∈ fin) ∧
    (r = .launchFailure ↔ ∃ svc, findEligible svcs fin = some svc ∧
      launch svc.name = false ∧ fin.length < svcs.length) := by
  refine ⟨?_, schedLoop_nil_subset launch svcs r fin hrun,
    schedLoop_success_iff launch svcs hnd r fin hrun, ?_⟩
  · intro k hk
    obtain ⟨svc, hfe, hl, hget⟩ := schedLoop_nil_trace launch svcs r fin hrun k hk
    obtain ⟨helig, pre, post, hsplit, hpre⟩ := findEligible_eq_some_iff.mp hfe
    exact ⟨svc, pre, post, hsplit, helig, hpre, hl, hget⟩
  · obtain ⟨-, -, -, hsucc, hstall, hfail⟩ := schedLoop_run launch svcs [] r fin hrun
    constructor
    · intro hr
      obtain ⟨hlen, svc, hfe, hl⟩ := hfail hr
      exact ⟨svc, hfe, hl, hlen⟩
    · rintro ⟨svc, hfe, hl, hlen⟩
      cases r with
      | launchFailure => rfl
      | success => exact absurd (hsucc rfl) (by omega)
      | stall =>
        rw [(hstall rfl).2] at hfe
        exact Option.noConfusion hfe

/-- Witness for C1, at the literal topology with every launch succeeding. -/
theorem C1_scheduler_main_loop_witness : ("gateway-server" : String) ∈ startOrder :=
  (C1_scheduler_main_loop (fun _ => true) services services_names_nodup .success
      startOrder schedLoop_services_eval).2.2.1.mp rfl gatewayServer (by decide)

/-- Claim C2: during any scheduling run the started set only grows (the final
set extends the initial one); in a run from the empty set no service is
started twice, every started service was launched with all of its
`depends_on` names already in the started set (and was not itself started),
and a failing launch is likewise of a not-yet-started service whose
dependencies were all started. -/
theorem C2_run_invariants (launch : String → Bool) (svcs : List Service) :
    (∀ started, ∃ suffix, (schedLoop launch svcs started).2 = started ++ suffix) ∧
    (∀ r fin, schedLoop launch svcs [] = (r, fin) →
      fin.Nodup ∧
      (∀ k (hk : k < fin.length), ∃ svc ∈ svcs,
        fin.get ⟨k, hk⟩ = svc.name ∧ svc.name ∉ fin.take k ∧
        ∀ d ∈ svc.depends_on, d ∈ fin.take k) ∧
      (r = .launchFailure → ∃ svc ∈ svcs, launch svc.name = false ∧
        svc.name ∉ fin ∧ ∀ d ∈ svc.depends_on, d ∈ fin)) := by
  constructor
  · intro started
    obtain ⟨⟨suffix, hfin, -⟩, -, -, -, -, -⟩ :=
      schedLoop_run launch svcs started (schedLoop launch svcs started).1
        (schedLoop launch svcs started).2 rfl
    exact ⟨suffix, hfin⟩
  · intro r fin hrun
    refine ⟨schedLoop_nil_nodup launch svcs r fin hrun, ?_, ?_⟩
    · intro k hk
      obtain ⟨svc, hfe, -, hget⟩ := schedLoop_nil_trace launch svcs r fin hrun k hk
      obtain ⟨hmem, hnot, hdeps⟩ := findEligible_some hfe
      exact ⟨svc, hmem, hget, hnot, hdeps⟩
    · intro hr
      obtain ⟨-, -, -, -, -, hfail⟩ := schedLoop_run launch svcs [] r fin hrun
      obtain ⟨-, svc, hfe, hl⟩ := hfail hr
      obtain ⟨hmem, hnot, hdeps⟩ := findEligible_some hfe
      exact ⟨svc, hmem, hl, hnot, hdeps⟩

/-- Witness for C2, at the literal topology with every launch succeeding. -/
theorem C2_run_invariants_witness : startOrder.Nodup :=
  ((C2_run_invariants (fun _ => true) services).2 .success startOrder
    schedLoop_services_eval).1

/-- Claim C3: the health checker returns true if and only if the response
status is 200 and the body contains the byte sequence `UP`; a connection
error or a timeout yields false, as do status 500 and a body without `UP`;
the function is total, so it never raises to its caller. -/
theorem C3_health_checker :
    (∀ status body, check_http_health (.response status body) =
      (status == 200 && containsSeq upBytes body)) ∧
    check_http_health .connError = false ∧
    check_http_health .timeout = false ∧
    (∀ o, check_http_health o = true ↔ ∃ status body,
      o = .response status body ∧ status = 200 ∧ containsSeq upBytes body = true) ∧
    check_http_health (.response 500 upBytes) = false ∧
    check_http_health (.response 200 [68, 79, 87, 78]) = false ∧
    check_http_health (.response 200 [123, 85, 80, 125]) = true := by
  refine ⟨fun _ _ => rfl, rfl, rfl, ?_, by decide, by decide, by decide⟩
  intro o
  cases o with
  | response st body =>
    simp only [check_http_health, Bool.and_eq_true, beq_iff_eq]
    constructor
    · rintro ⟨h1, h2⟩
      exact ⟨st, body, rfl, h1, h2⟩
    · rintro ⟨s, b, heq, h1, h2⟩
      injection heq with hs hb
      subst hs; subst hb
      exact ⟨h1, h2⟩
  | connError =>
    simp [check_http_health]
  | timeout =>
    simp [check_http_health]

/-- Witness for C3: a 200 response whose body is exactly `UP` is healthy. -/
theorem C3_health_checker_witness :
    check_http_health (.response 200 upBytes) = true :=
  (C3_health_checker.2.2.2.1 (.response 200 upBytes)).mpr ⟨200, upBytes, rfl, rfl, rfl⟩

/-- Claim C4: for any retry budget `n ≥ 1` and delay `d`, the readiness
waiter calls the health checker at most `n` times; when the first healthy
observation is call `k` it returns true after exactly `k + 1` calls (no
further calls); when all `n` calls fail it returns false after exactly `n`
calls; and its total sleeping time is at most `n * d`, with the bound
attained exactly in the all-fail worst case. -/
theorem C4_readiness_waiter (health : Nat → Bool) (n d : Nat) (hn : 1 ≤ n) :
    waitCalls health n ≤ n ∧
    (∀ k, k < n → (∀ j, j < k → health j = false) → health k = true →
      wait_for_service health n = true ∧ waitCalls health n = k + 1) ∧
    ((∀ j, j < n → health j = false) →
      wait_for_service health n = false ∧ waitCalls health n = n) ∧
    waitSleep health n d ≤ n * d ∧
    ((∀ j, j < n → health j = false) → waitSleep health n d = n * d) := by
  refine ⟨waitAuxCalls_le health n 0, ?_, ?_, waitAuxSleep_le health d n 0, ?_⟩
  · intro k hk hb ht
    exact waitAux_first_true health n 0 k hk (by simpa using hb) (by simpa using ht)
  · intro hall
    exact waitAux_all_false health n 0 (by simpa using hall)
  · intro hall
    exact waitAuxSleep_all_false health d n 0 (by simpa using hall)

/-- Witness for C4, at `maxRetries = 3`: three failing checks give false
after three calls, and an immediately healthy service gives true after one
call. -/
theorem C4_readiness_waiter_witness :
    (wait_for_service (fun _ => false) 3 = false ∧ waitCalls (fun _ => false) 3 = 3) ∧
    (wait_for_service (fun _ => true) 3 = true ∧ waitCalls (fun _ => true) 3 = 1) :=
  ⟨(C4_readiness_waiter (fun _ => false) 3 0 (by decide)).2.2.1 (fun _ _ => rfl),
   (C4_readiness_waiter (fun _ => true) 3 0 (by decide)).2.1 0 (by decide)
     (fun j hj => absurd hj (Nat.not_lt_zero j)) rfl⟩

/-- Counterexample for C5 as stated: in `counterEnv` the build succeeds, yet
the launcher does not return the readiness waiter's result (it returns false
where the waiter would return true), and it neither sleeps the grace period
nor polls — because the terminal-spawn command failed, a case the claim's
enumeration of failure conditions omits. -/
theorem C5_counterexample :
    counterEnv.buildOk = true ∧
    (start_spring_boot_service counterEnv).1 = false ∧
    wait_for_service counterEnv.health 30 = true ∧
    LaunchEvent.sleepGrace 5 ∉ (start_spring_boot_service counterEnv).2 ∧
    LaunchEvent.healthCheck ∉ (start_spring_boot_service counterEnv).2 := by
  decide

/-- Claim C5 (amended): the launcher first runs the build command and, if the
build fails, returns failure without spawning, sleeping or polling; after a
successful build it runs the terminal-spawn command and, if that command
fails, returns failure without sleeping or polling; after a successful spawn
it sleeps the 5-unit grace period and returns the readiness waiter's result;
the launch fails exactly on build failure, spawn-command failure, or
readiness timeout. -/
theorem C5_service_launcher (env : LaunchEnv) :
    (env.buildOk = false → start_spring_boot_service env = (false, [.runBuild])) ∧
    (env.buildOk = true → env.spawnOk = false →
      start_spring_boot_service env = (false, [.runBuild, .runSpawn])) ∧
    (env.buildOk = true → env.spawnOk = true →
      start_spring_boot_service env =
        (wait_for_service env.health 30,
          [.runBuild, .runSpawn, .sleepGrace 5] ++
            List.replicate (waitCalls env.health 30) .healthCheck)) ∧
    ((start_spring_boot_service env).1 = false ↔
      env.buildOk = false ∨ env.spawnOk = false ∨ wait_for_service env.health 30 = false) := by
  obtain ⟨b, s, h⟩ := env
  cases b <;> cases s <;> simp [start_spring_boot_service]

/-- Witness for C5 (amended): a failing build aborts with only the build
attempted. -/
theorem C5_service_launcher_witness :
    start_spring_boot_service ⟨false, true, fun _ => true⟩ =
      (false, [LaunchEvent.runBuild]) :=
  (C5_service_launcher ⟨false, true, fun _ => true⟩).1 rfl

/-- Claim C6: for any dependency graph containing a cycle — a nonempty set of
service names each of whose services has a dependency inside the set — no
member of the cyclic subset is ever added to the started set, the run never
succeeds, and when no individual launch fails the run ends with the stall
failure: a full scan finds no eligible service while the started set is
incomplete. -/
theorem C6_cycle_stall (launch : String → Bool) (svcs : List Service)
    (hnd : (svcs.map Service.name).Nodup)
    (cyc : List String) (hne : cyc ≠ [])
    (hsub : ∀ c ∈ cyc, ∃ svc ∈ svcs, svc.name = c)
    (hcyc : ∀ svc ∈ svcs, svc.name ∈ cyc → ∃ d ∈ svc.depends_on, d ∈ cyc)
    (r : RunResult) (fin : List String) (hrun : schedLoop launch svcs [] = (r, fin)) :
    (∀ c ∈ cyc, c ∉ fin) ∧
    r ≠ .success ∧
    ((∀ s, launch s = true) → r = .stall ∧ fin.length < svcs.length ∧
      findEligible svcs fin = none) := by
  have htrace := schedLoop_nil_trace launch svcs r fin hrun
  have hgetC : ∀ k (hk : k < fin.length), fin.get ⟨k, hk⟩ ∉ cyc := by
    intro k
    induction k using Nat.strong_induction_on with
    | _ k ih =>
      intro hk hmemC
      obtain ⟨svc, hfe, -, hget⟩ := htrace k hk
      obtain ⟨hmem, -, hdeps⟩ := findEligible_some hfe
      rw [hget] at hmemC
      obtain ⟨d, hd, hdC⟩ := hcyc svc hmem hmemC
      have hdtake : d ∈ fin.take k := hdeps d hd
      obtain ⟨⟨j, hj⟩, hjget⟩ := List.mem_iff_get.mp hdtake
      have hjlen : j < fin.length := by simp at hj; omega
      have hjk : j < k := by simp at hj; omega
      apply ih j hjk hjlen
      have hjd : fin.get ⟨j, hjlen⟩ = d := by
        rw [← hjget]
        simp [List.get_take]
      rw [hjd]
      exact hdC
  have hCfin : ∀ c ∈ cyc, c ∉ fin := by
    intro c hcC hcfin
    obtain ⟨⟨k, hk⟩, hkget⟩ := List.mem_iff_get.mp hcfin
    apply hgetC k hk
    rw [hkget]
    exact hcC
  have hnsucc : r ≠ .success := by
    intro hr
    obtain ⟨c, hc⟩ := List.exists_mem_of_ne_nil cyc hne
    obtain ⟨svc, hsvc, hname⟩ := hsub c hc
    have hin : svc.name ∈ fin :=
      (schedLoop_success_iff launch svcs hnd r fin hrun).mp hr svc hsvc
    rw [hname] at hin
    exact hCfin c hc hin
  refine ⟨hCfin, hnsucc, ?_⟩
  intro hall
  obtain ⟨-, -, -, -, hstall, hfail⟩ := schedLoop_run launch svcs [] r fin hrun
  cases r with
  | success => exact absurd rfl hnsucc
  | launchFailure =>
    obtain ⟨-, svc, -, hl⟩ := hfail rfl
    exact absurd (hall svc.name) (by simp [hl])
  | stall =>
    obtain ⟨h1, h2⟩ := hstall rfl
    exact ⟨rfl, h1, h2⟩

/-- Witness for C6, at the mutually cyclic two-service topology: X never
starts (the final started set is empty) and the stalling scan finds no
eligible service. -/
theorem C6_cycle_stall_witness :
    (("X" : String) ∉ ([] : List String)) ∧ findEligible [svcX, svcY] [] = none := by
  have h := C6_cycle_stall (fun _ => true) [svcX, svcY] (by decide) ["X", "Y"]
    (by decide) (by decide) (by decide) .stall [] schedLoop_XY_eval
  exact ⟨h.1 "X" (by decide), (h.2.2 (fun _ => rfl)).2.2⟩

/-- Claim C7: when a launch fails, the run ends at once with the started set
exactly the previously successful launches (each of which remains recorded),
the failing service is not added to it, and the overall run result is
failure. -/
theorem C7_failure_preserves_started (launch : String → Bool) (svcs : List Service)
    (fin : List String) (hrun : schedLoop launch svcs [] = (.launchFailure, fin)) :
    (∀ k (hk : k < fin.length), ∃ svc, findEligible svcs (fin.take k) = some svc ∧
      launch svc.name = true ∧ fin.get ⟨k, hk⟩ = svc.name) ∧
    (∃ svc, findEligible svcs fin = some svc ∧ launch svc.name = false ∧
      svc.name ∉ fin ∧ ∀ d ∈ svc.depends_on, d ∈ fin) ∧
    mainLoopResult launch svcs = false := by
  refine ⟨schedLoop_nil_trace launch svcs .launchFailure fin hrun, ?_, ?_⟩
  · obtain ⟨-, -, -, -, -, hfail⟩ := schedLoop_run launch svcs [] .launchFailure fin hrun
    obtain ⟨-, svc, hfe, hl⟩ := hfail rfl
    obtain ⟨-, hnot, hdeps⟩ := findEligible_some hfe
    exact ⟨svc, hfe, hl, hnot, hdeps⟩
  · simp [mainLoopResult, hrun]

/-- Witness for C7, at the A/B scenario: B's failing launch leaves the
started set at exactly `["A"]` and the run's boolean result is failure. -/
theorem C7_failure_preserves_started_witness :
    mainLoopResult launchAB [svcA, svcB] = false :=
  (C7_failure_preserves_started launchAB [svcA, svcB] ["A"] schedLoop_AB_eval).2.2

/-- Claim C8: the process exit code is 0 when `main` returns true, 1 when it
returns false, 0 on a keyboard interrupt, and 1 on an uncaught error; `main`
returns true exactly when the infrastructure command succeeded and the
scheduling loop over the literal topology ended successfully (so every
failure path — infrastructure, build, readiness timeout, stall — exits 1). -/
theorem C8_exit_codes :
    exitCode (.ret true) = 0 ∧
    exitCode (.ret false) = 1 ∧
    exitCode .keyboardInterrupt = 0 ∧
    exitCode .uncaughtError = 1 ∧
    (∀ dockerOk launch, main dockerOk launch = true ↔
      (dockerOk = true ∧ (schedLoop launch services []).1 = .success)) := by
  refine ⟨rfl, rfl, rfl, rfl, ?_⟩
  intro dockerOk launch
  cases dockerOk with
  | false => simp [main]
  | true =>
    cases hres : (schedLoop launch services []).1 with
    | success => simp [main, mainLoopResult, hres]
    | launchFailure => simp [main, mainLoopResult, hres]
    | stall => simp [main, mainLoopResult, hres]

/-- Witness for C8: full success exits 0. -/
theorem C8_exit_codes_witness : exitCode (.ret true) = 0 :=
  C8_exit_codes.1

/-- Claim C9: the command runner yields a boolean exactly for commands that
ran to completion (exit code 0 gives true; any non-zero exit code raises
`CalledProcessError`, the only exception caught, giving false); a command
that cannot be executed at all propagates its exception to the caller, which
reaches the top-level generic handler and exit code 1. -/
theorem C9_run_command_errors :
    (∀ code, run_command (.exited code) = .ok (code == 0)) ∧
    run_command .raised = .error () ∧
    (∀ o b, run_command o = .ok b → ∃ code, o = .exited code) ∧
    exitCode .uncaughtError = 1 := by
  refine ⟨?_, rfl, ?_, rfl⟩
  · intro code
    cases code <;> rfl
  · intro o b h
    cases o with
    | exited code => exact ⟨code, rfl⟩
    | raised => exact absurd h (by simp [run_command])

/-- Witness for C9: a clean exit is reported as a boolean. -/
theorem C9_run_command_errors_witness :
    ∃ code, ExecOutcome.exited 0 = ExecOutcome.exited code :=
  C9_run_command_errors.2.2.1 (.exited 0) true rfl

/-- Claim C10: for the literal five-service topology, every successful run
starts the services exactly once each, in the fixed order config-server,
eureka-server, customer-service, notification-service, gateway-server. -/
theorem C10_fixed_topology_order (launch : String → Bool) (r : RunResult)
    (fin : List String) (hrun : schedLoop launch services [] = (r, fin))
    (hr : r = .success) : fin = startOrder := by
  subst hr
  have hge : services.length ≤ fin.length := by
    obtain ⟨-, -, -, hsucc, -, -⟩ := schedLoop_run launch services [] _ fin hrun
    exact hsucc rfl
  have hle : fin.length ≤ services.length := schedLoop_fin_le launch services _ fin hrun
  have hlen : fin.length = 5 := by
    have h5 : services.length = 5 := rfl
    omega
  have htrace := schedLoop_nil_trace launch services _ fin hrun
  obtain ⟨a, b, c, d, e, hfin⟩ := list_length_five fin hlen
  subst hfin
  obtain ⟨s0, hfe0, -, hg0⟩ := htrace 0 (by simp)
  have hs0 : s0 = configServer :=
    Option.some.inj (hfe0.symm.trans
      (show findEligible services ([a, b, c, d, e].take 0) = some configServer from rfl))
  have ha : a = "config-server" := by
    have hg : a = s0.name := hg0
    rw [hg, hs0]
    rfl
  subst ha
  obtain ⟨s1, hfe1, -, hg1⟩ := htrace 1 (by simp)
  have hs1 : s1 = eurekaServer :=
    Option.some.inj (hfe1.symm.trans
      (show findEligible services (["config-server", b, c, d, e].take 1) =
        some eurekaServer from rfl))
  have hb : b = "eureka-server" := by
    have hg : b = s1.name := hg1
    rw [hg, hs1]
    rfl
  subst hb
  obtain ⟨s2, hfe2, -, hg2⟩ := htrace 2 (by simp)
  have hs2 : s2 = customerService :=
    Option.some.inj (hfe2.symm.trans
      (show findEligible services
        (["config-server", "eureka-server", c, d, e].take 2) =
        some customerService from rfl))
  have hc : c = "customer-service" := by
    have hg : c = s2.name := hg2
    rw [hg, hs2]
    rfl
  subst hc
  obtain ⟨s3, hfe3, -, hg3⟩ := htrace 3 (by simp)
  have hs3 : s3 = notificationService :=
    Option.some.inj (hfe3.symm.trans
      (show findEligible services
        (["config-server", "eureka-server", "customer-service", d, e].take 3) =
        some notificationService from rfl))
  have hd : d = "notification-service" := by
    have hg : d = s3.name := hg3
    rw [hg, hs3]
    rfl
  subst hd
  obtain ⟨s4, hfe4, -, hg4⟩ := htrace 4 (by simp)
  have hs4 : s4 = gatewayServer :=
    Option.some.inj (hfe4.symm.trans
      (show findEligible services
        (["config-server", "eureka-server", "customer-service",
          "notification-service", e].take 4) = some gatewayServer from rfl))
  have he : e = "gateway-server" := by
    have hg : e = s4.name := hg4
    rw [hg, hs4]
    rfl
  subst he
  rfl

/-- Witness for C10: the all-launches-succeed run ends in exactly the
declared order. -/
theorem C10_fixed_topology_order_witness :
    (schedLoop (fun _ => true) services []).2 = startOrder :=
  C10_fixed_topology_order (fun _ => true) (schedLoop (fun _ => true) services []).1
    (schedLoop (fun _ => true) services []).2 rfl
    (by rw [schedLoop_services_eval])

end StartServices
